import Mathlib

/-
Verification of the ResultWire library (src/src/index.ts, src/src/helpers.ts,
src/src/result.ts): a serialization-friendly tagged union `Result<T, E>` with
pure combinator functions. This file gives a shallow embedding of the data
model and the combinators and proves the specified properties about them.
-/

set_option autoImplicit true

namespace ResultWire

/-- The `Result<T, E>` discriminated union from `src/src/result.ts` /
`src/src/index.ts`: either `{kind: 'ok', value: T}` or `{kind: 'err', error: E}`.
The `kind` discriminator field is recovered by `Result.kind` below. -/
inductive Result (T E : Type) where
  | ok (value : T)
  | err (error : E)
deriving DecidableEq

/-- The literal `kind` discriminator field of a `Result` object. -/
def Result.kind : Result T E → String
  | .ok _ => "ok"
  | .err _ => "err"

/-- `isOk` from the source: `result.kind === 'ok'`. -/
def isOk (result : Result T E) : Bool :=
  result.kind == "ok"

/-- `isErr` from the source: `result.kind === 'err'`. -/
def isErr (result : Result T E) : Bool :=
  result.kind == "err"

/-- `map` from the source: `isOk(result) ? ok(f(result.value)) : result`.
On the `err` branch the source returns the same object; in the embedding the
payload is re-wrapped, which denotes the same value. -/
def map (result : Result T E) (f : T → U) : Result U E :=
  match result with
  | .ok value => .ok (f value)
  | .err e => .err e

/-- `mapErr` from the source: `isErr(result) ? err(f(result.error)) : result`. -/
def mapErr (result : Result T E) (f : E → F) : Result T F :=
  match result with
  | .ok v => .ok v
  | .err e => .err (f e)

/-- `unwrapOr` from the source: `isOk(result) ? result.value : defaultValue`. -/
def unwrapOr (result : Result T E) (defaultValue : T) : T :=
  match result with
  | .ok v => v
  | .err _ => defaultValue

/-- `andThen` from the source: `isOk(result) ? f(result.value) : result`. -/
def andThen (result : Result T E) (f : T → Result U E) : Result U E :=
  match result with
  | .ok v => f v
  | .err e => .err e

/-- `orElse` from the source: `isErr(result) ? f(result.error) : result`. -/
def orElse (result : Result T E) (f : E → Result T F) : Result T F :=
  match result with
  | .ok v => .ok v
  | .err e => f e

/-- `match` from the source (renamed because `match` is a Lean keyword):
`isOk(result) ? okFn(result.value) : errFn(result.error)`. -/
def matchResult (result : Result T E) (okFn : T → U) (errFn : E → U) : U :=
  match result with
  | .ok v => okFn v
  | .err e => errFn e

/-- The loop body of `combine` from the source, with the `values` accumulator
made explicit: for each element, if it is `err` return it, else push its value. -/
def combineGo : List (Result T E) → List T → Result (List T) E
  | [], values => .ok values
  | result :: rest, values =>
    match result with
    | .err e => .err e
    | .ok v => combineGo rest (values ++ [v])

/-- `combine` from the source: scan the array, return the first `err`
encountered, else `ok` of the collected values. -/
def combine (results : List (Result T E)) : Result (List T) E :=
  combineGo results []

/-- The loop body of `combineWithAllErrors` from the source, with the `values`
and `errors` accumulators made explicit; at the end the source tests
`errors.length === 0`. -/
def combineWithAllErrorsGo : List (Result T E) → List T → List E → Result (List T) (List E)
  | [], values, errors => if errors.length = 0 then .ok values else .err errors
  | result :: rest, values, errors =>
    match result with
    | .ok v => combineWithAllErrorsGo rest (values ++ [v]) errors
    | .err e => combineWithAllErrorsGo rest values (errors ++ [e])

/-- `combineWithAllErrors` from the source: partition values and errors,
return `ok(values)` when no errors were collected, else `err(errors)`. -/
def combineWithAllErrors (results : List (Result T E)) : Result (List T) (List E) :=
  combineWithAllErrorsGo results [] []

/-- The unwrap function from the source (exported as `safeUnwrap` in
`helpers.ts` and with an identical body under another name in `index.ts`):
if the result is `err` it throws `new Error('Attempted to unwrap an Err value')`,
else it returns `result.value`. The thrown error is modelled as the `Except.error`
branch carrying the thrown message. -/
def safeUnwrap (result : Result T E) : Except String T :=
  match result with
  | .err _ => .error "Attempted to unwrap an Err value"
  | .ok v => .ok v

/-- A JavaScript promise as observed at resolution time: it either fulfilled
with a value or rejected with a reason. -/
inductive Promise (T E : Type) where
  | fulfilled (value : T)
  | rejected (reason : E)
deriving DecidableEq

/-- `.then(f)` on a promise, for a handler `f` that does not throw (the only
handlers used in the source are `ok` and `err`, which are total). -/
def pThen (p : Promise T E) (f : T → U) : Promise U E :=
  match p with
  | .fulfilled v => .fulfilled (f v)
  | .rejected e => .rejected e

/-- `.catch(f)` on a promise, for a handler `f` that does not throw: a
rejection becomes fulfillment with `f reason`. The output rejection type is
free because the output never rejects. -/
def pCatch (p : Promise T E) (f : E → T) : Promise T F :=
  match p with
  | .fulfilled v => .fulfilled v
  | .rejected e => .fulfilled (f e)

/-- `fromPromise` from the source: `promise.then(ok).catch((error) => err(error))`. -/
def fromPromise (p : Promise T E) : Promise (Result T E) F :=
  pCatch (pThen p Result.ok) (fun e => Result.err e)

/-- The observable behaviour of calling the thunk `f` passed to `fromThrowable`:
it either returns a plain value, returns a promise, or throws synchronously. -/
inductive CallBehavior (T E : Type) where
  | retSync (value : T)
  | retPromise (p : Promise T E)
  | throws (exn : E)
deriving DecidableEq

/-- `fromThrowable` from the source: call `f` inside try/catch; if it returns a
promise, return `result.then(ok).catch(err)` (the right summand); if it returns
a plain value, return `ok(result)`; if it throws, return `err(e)` (left
summand = synchronous `Result`). The dispatch is on what the call produced
(`instanceof Promise`), not on a separate flag. -/
def fromThrowable (fcall : CallBehavior T E) : Sum (Result T E) (Promise (Result T E) F) :=
  match fcall with
  | .throws e => .inl (.err e)
  | .retSync v => .inl (.ok v)
  | .retPromise p => .inr (pCatch (pThen p Result.ok) (fun e => Result.err e))

/-- Extracts the payload of an `ok` result, `none` on `err`. -/
def okValue : Result T E → Option T
  | .ok v => some v
  | .err _ => none

/-- Extracts the payload of an `err` result, `none` on `ok`. -/
def errValue : Result T E → Option E
  | .ok _ => none
  | .err e => some e

@[simp] theorem isOk_ok (v : T) : isOk (Result.ok v : Result T E) = true := rfl

@[simp] theorem isOk_err (e : E) : isOk (Result.err e : Result T E) = false := rfl

@[simp] theorem isErr_ok (v : T) : isErr (Result.ok v : Result T E) = false := rfl

@[simp] theorem isErr_err (e : E) : isErr (Result.err e : Result T E) = true := rfl

/-- Claim C3: `andThen(success(x), f)` equals `f(x)` directly (the returned
result is not re-wrapped); `andThen(failure(e), f)` equals `failure(e)`
unchanged, and the output on the failure path does not depend on `f`
(so `f` is not invoked there). -/
theorem andThen_monad_identity (T U E : Type) :
    (∀ (x : T) (f : T → Result U E), andThen (Result.ok x) f = f x) ∧
    (∀ (e : E) (f : T → Result U E), andThen (Result.err e) f = Result.err e) ∧
    (∀ (e : E) (f g : T → Result U E), andThen (Result.err e) f = andThen (Result.err e) g) :=
  ⟨fun _ _ => rfl, fun _ _ => rfl, fun _ _ _ => rfl⟩

/-- Claim C4: `map(success(x), f)` equals `success(f(x))`; `map(failure(e), f)`
equals `failure(e)` with the same payload, and the output on the failure path
does not depend on `f` (so `f` is not invoked there). -/
theorem map_functor_law (T U E : Type) :
    (∀ (x : T) (f : T → U), map (Result.ok x : Result T E) f = Result.ok (f x)) ∧
    (∀ (e : E) (f : T → U), map (Result.err e : Result T E) f = Result.err e) ∧
    (∀ (e : E) (f g : T → U), map (Result.err e : Result T E) f = map (Result.err e) g) :=
  ⟨fun _ _ => rfl, fun _ _ => rfl, fun _ _ _ => rfl⟩

/-- Claim C5: unwrapping a success returns its payload; unwrapping a failure
raises an error carrying the fixed generic message
"Attempted to unwrap an Err value", and the raised error does not depend on the
original failure payload (the payload is not attached). -/
theorem safeUnwrap_spec (T E : Type) :
    (∀ v : T, safeUnwrap (Result.ok v : Result T E) = Except.ok v) ∧
    (∀ e : E, safeUnwrap (Result.err e : Result T E) =
      Except.error "Attempted to unwrap an Err value") ∧
    (∀ e e' : E, safeUnwrap (Result.err e : Result T E) = safeUnwrap (Result.err e')) :=
  ⟨fun _ => rfl, fun _ => rfl, fun _ _ => rfl⟩

/-- Claim C8: `isOk` and `isErr` are exhaustive and mutually exclusive on every
well-formed `Result`: `isOk(ok(x))` is true and `isErr(ok(x))` is false for
every `x`, symmetrically for `err`, and for every `r` exactly one of the two
predicates holds. -/
theorem isOk_isErr_exclusive (T E : Type) :
    (∀ v : T, isOk (Result.ok v : Result T E) = true ∧ isErr (Result.ok v : Result T E) = false) ∧
    (∀ e : E, isOk (Result.err e : Result T E) = false ∧ isErr (Result.err e : Result T E) = true) ∧
    (∀ r : Result T E,
      (isOk r = true ∧ isErr r = false) ∨ (isOk r = false ∧ isErr r = true)) := by
  refine ⟨fun v => ⟨rfl, rfl⟩, fun e => ⟨rfl, rfl⟩, fun r => ?_⟩
  cases r with
  | ok v => exact Or.inl ⟨rfl, rfl⟩
  | err e => exact Or.inr ⟨rfl, rfl⟩

/-- Claim C6: `fromThrowable(f)` returns `success(f())` when the call returns a
plain value, `failure(e)` when the call throws `e` synchronously, and when the
call returns a promise it returns a promise that resolves to `success` of the
fulfilled value or `failure` of the rejection reason (and never rejects); the
mode is selected by what the call produced, not by a separate flag. -/
theorem fromThrowable_spec (T E F : Type) :
    (∀ v : T, fromThrowable (CallBehavior.retSync v : CallBehavior T E) =
      (Sum.inl (Result.ok v) : Sum (Result T E) (Promise (Result T E) F))) ∧
    (∀ e : E, fromThrowable (CallBehavior.throws e : CallBehavior T E) =
      (Sum.inl (Result.err e) : Sum (Result T E) (Promise (Result T E) F))) ∧
    (∀ v : T, fromThrowable (CallBehavior.retPromise (Promise.fulfilled v) : CallBehavior T E) =
      (Sum.inr (Promise.fulfilled (Result.ok v)) : Sum (Result T E) (Promise (Result T E) F))) ∧
    (∀ e : E, fromThrowable (CallBehavior.retPromise (Promise.rejected e) : CallBehavior T E) =
      (Sum.inr (Promise.fulfilled (Result.err e)) : Sum (Result T E) (Promise (Result T E) F))) ∧
    (∀ p : Promise T E, ∃ res : Result T E, fromThrowable (CallBehavior.retPromise p) =
      (Sum.inr (Promise.fulfilled res) : Sum (Result T E) (Promise (Result T E) F))) := by
  refine ⟨fun _ => rfl, fun _ => rfl, fun _ => rfl, fun _ => rfl, fun p => ?_⟩
  cases p with
  | fulfilled v => exact ⟨Result.ok v, rfl⟩
  | rejected e => exact ⟨Result.err e, rfl⟩

theorem combineGo_eq (rs : List (Result T E)) :
    ∀ acc : List T,
      combineGo rs acc =
        match rs.findSome? errValue with
        | some e => Result.err e
        | none => Result.ok (acc ++ rs.filterMap okValue) := by
  induction rs with
  | nil => intro acc; simp [combineGo]
  | cons r rest ih =>
    intro acc
    cases r with
    | err e =>
      have hstep : combineGo (Result.err e :: rest) acc = Result.err e := rfl
      have hfse : (Result.err e :: rest).findSome? errValue = some e := by
        simp [errValue]
      rw [hstep, hfse]
    | ok v =>
      have hstep : combineGo (Result.ok v :: rest) acc = combineGo rest (acc ++ [v]) := rfl
      have hfsc : (Result.ok v :: rest).findSome? errValue = rest.findSome? errValue := by
        simp [errValue]
      have hfm : List.filterMap okValue (Result.ok v :: rest)
          = v :: List.filterMap okValue rest := by
        simp [okValue]
      rw [hstep, ih (acc ++ [v]), hfsc, hfm]
      cases hfs : rest.findSome? errValue with
      | some e => rfl
      | none => rw [List.append_assoc, List.singleton_append]

theorem combineWithAllErrorsGo_eq (rs : List (Result T E)) :
    ∀ (vacc : List T) (eacc : List E),
      combineWithAllErrorsGo rs vacc eacc =
        if (eacc ++ rs.filterMap errValue).length = 0 then
          Result.ok (vacc ++ rs.filterMap okValue)
        else Result.err (eacc ++ rs.filterMap errValue) := by
  induction rs with
  | nil =>
    intro vacc eacc
    have h0 : combineWithAllErrorsGo ([] : List (Result T E)) vacc eacc
        = if eacc.length = 0 then Result.ok vacc else Result.err eacc := rfl
    rw [h0, List.filterMap_nil, List.filterMap_nil, List.append_nil, List.append_nil]
  | cons r rest ih =>
    intro vacc eacc
    cases r with
    | ok v =>
      have hstep : combineWithAllErrorsGo (Result.ok v :: rest) vacc eacc
          = combineWithAllErrorsGo rest (vacc ++ [v]) eacc := rfl
      have h1 : List.filterMap errValue (Result.ok v :: rest)
          = List.filterMap errValue rest := by simp [errValue]
      have h2 : List.filterMap okValue (Result.ok v :: rest)
          = v :: List.filterMap okValue rest := by simp [okValue]
      rw [hstep, ih (vacc ++ [v]) eacc, h1, h2, List.append_assoc, List.singleton_append]
    | err e =>
      have hstep : combineWithAllErrorsGo (Result.err e :: rest) vacc eacc
          = combineWithAllErrorsGo rest vacc (eacc ++ [e]) := rfl
      have h1 : List.filterMap errValue (Result.err e :: rest)
          = e :: List.filterMap errValue rest := by simp [errValue]
      have h2 : List.filterMap okValue (Result.err e :: rest)
          = List.filterMap okValue rest := by simp [okValue]
      rw [hstep, ih vacc (eacc ++ [e]), h1, h2, List.append_assoc, List.singleton_append]

theorem findSome?_errValue_eq_none (rs : List (Result T E)) :
    rs.findSome? errValue = none ↔ ∀ r ∈ rs, isOk r = true := by
  induction rs with
  | nil => simp
  | cons r rest ih =>
    cases r with
    | ok v => simp_all [errValue]
    | err e => simp [errValue]

theorem filterMap_errValue_eq_nil (rs : List (Result T E)) :
    rs.filterMap errValue = [] ↔ ∀ r ∈ rs, isOk r = true := by
  induction rs with
  | nil => simp
  | cons r rest ih =>
    cases r with
    | ok v => simp_all [errValue]
    | err e => simp [errValue]

theorem findSome?_errValue_first (pre post : List (Result T E)) (e : E)
    (h : ∀ r ∈ pre, isOk r = true) :
    (pre ++ Result.err e :: post).findSome? errValue = some e := by
  induction pre with
  | nil => simp [errValue]
  | cons r rest ih =>
    cases r with
    | ok v =>
      have := ih (fun r hr => h r (List.mem_cons_of_mem _ hr))
      simp_all [errValue]
    | err e' =>
      have := h (Result.err e') (List.mem_cons_self _ _)
      simp at this

/-- Claim C1: `combine` returns `success([])` on the empty list; when every
element is a success it returns `success` of the payloads in input order; and
on a list whose first failure is `err e` (any all-success segment before it,
anything after it) it returns that failure with its payload unmodified,
regardless of what follows (short-circuit). -/
theorem combine_spec (T E : Type) :
    (combine ([] : List (Result T E)) = Result.ok []) ∧
    (∀ rs : List (Result T E), (∀ r ∈ rs, isOk r = true) →
      combine rs = Result.ok (rs.filterMap okValue)) ∧
    (∀ (pre post : List (Result T E)) (e : E), (∀ r ∈ pre, isOk r = true) →
      combine (pre ++ Result.err e :: post) = Result.err e) := by
  refine ⟨rfl, fun rs h => ?_, fun pre post e h => ?_⟩
  · have heq := combineGo_eq rs []
    rw [(findSome?_errValue_eq_none rs).mpr h] at heq
    simpa [combine] using heq
  · have heq := combineGo_eq (pre ++ Result.err e :: post) ([] : List T)
    rw [findSome?_errValue_first pre post e h] at heq
    simpa [combine] using heq

theorem combine_spec_witness :
    combine [Result.ok 1, Result.err "E1", Result.ok 3] = Result.err "E1" ∧
    combine [Result.ok (1 : Nat), Result.ok 2] = (Result.ok [1, 2] : Result (List Nat) String) ∧
    combine ([] : List (Result Nat String)) = Result.ok [] :=
  ⟨(combine_spec Nat String).2.2 [Result.ok 1] [Result.ok 3] "E1" (by decide),
   by simpa using (combine_spec Nat String).2.1 [Result.ok 1, Result.ok 2] (by decide),
   (combine_spec Nat String).1⟩

/-- Claim C2: `combineWithAllErrors` visits every element and partitions it:
it returns `failure` of the list of all failure payloads in original relative
order when there is at least one failure (success values discarded), and
`success` of all success payloads in original order otherwise; the empty list
yields `success([])` since it contributes no errors. -/
theorem combineWithAllErrors_spec (T E : Type) (rs : List (Result T E)) :
    combineWithAllErrors rs =
      if (rs.filterMap errValue).length = 0 then Result.ok (rs.filterMap okValue)
      else Result.err (rs.filterMap errValue) := by
  simpa [combineWithAllErrors] using combineWithAllErrorsGo_eq rs [] []

/-- Claim C10: `combine rs` is success-tagged exactly when
`combineWithAllErrors rs` is (both succeed exactly when every element of `rs`
is a success), and in that case the two agree: they return `success` of the
same value list in the same order. -/
theorem combine_agrees_combineWithAllErrors (T E : Type) (rs : List (Result T E)) :
    (isOk (combine rs) = true ↔ isOk (combineWithAllErrors rs) = true) ∧
    (∀ vs : List T, combine rs = Result.ok vs ↔ combineWithAllErrors rs = Result.ok vs) ∧
    ((∀ r ∈ rs, isOk r = true) ↔ isOk (combine rs) = true) := by
  have hc := combineGo_eq rs ([] : List T)
  have hcw := combineWithAllErrorsGo_eq rs ([] : List T) ([] : List E)
  cases hfs : rs.findSome? errValue with
  | none =>
    have hall : ∀ r ∈ rs, isOk r = true := (findSome?_errValue_eq_none rs).mp hfs
    have hnil : rs.filterMap errValue = [] := (filterMap_errValue_eq_nil rs).mpr hall
    rw [hfs] at hc
    simp only [combine, combineWithAllErrors] at *
    rw [hc, hcw]
    simpa [hnil] using hall
  | some e =>
    have hnall : ¬ ∀ r ∈ rs, isOk r = true := by
      intro hall
      rw [(findSome?_errValue_eq_none rs).mpr hall] at hfs
      exact Option.noConfusion hfs
    have hnnil : rs.filterMap errValue ≠ [] := by
      intro hnil
      exact hnall ((filterMap_errValue_eq_nil rs).mp hnil)
    rw [hfs] at hc
    simp only [combine, combineWithAllErrors] at *
    rw [hc, hcw]
    simp [List.length_eq_zero, hnnil, hnall]

/-- A JavaScript runtime value, as far as this library stores one in a
`Result` object: a primitive (number or string) or an array. Arrays appear
because `combine` / `combineWithAllErrors` allocate `ok(values)` / `err(errors)`
objects whose payload is an array. -/
inductive JSVal : Type where
  | num (n : Int)
  | str (s : String)
  | arr (elems : List JSVal)

/-- The JavaScript heap restricted to the `Result` objects this library touches:
a list of allocated plain objects, addressed by allocation index. -/
abbrev Heap := List (Result JSVal JSVal)

/-- Allocation of a fresh plain object, as performed by the source's `ok` and
`err` constructors (`return {kind, value}` / `return {kind, error}`): the heap
grows by one cell and the new cell's address is returned. -/
def allocObj (s : Heap) (v : Result JSVal JSVal) : Heap × Nat :=
  (s ++ [v], s.length)

/-- `map` at the heap level: read the object at `r`; on the ok branch allocate
a fresh `ok(f(value))` object, on the err branch return the original reference.
No heap cell is ever written. -/
def mapH (s : Heap) (r : Nat) (f : JSVal → JSVal) : Heap × Nat :=
  match s[r]? with
  | some (Result.ok v) => allocObj s (Result.ok (f v))
  | some (Result.err _) => (s, r)
  | none => (s, r)

/-- `mapErr` at the heap level: allocate a fresh `err(f(error))` object on the
err branch, return the original reference on the ok branch. -/
def mapErrH (s : Heap) (r : Nat) (f : JSVal → JSVal) : Heap × Nat :=
  match s[r]? with
  | some (Result.err e) => allocObj s (Result.err (f e))
  | _ => (s, r)

/-- `andThen` at the heap level: the callback `f` runs against the heap and
returns a reference of its own; on the err branch the original reference is
returned. -/
def andThenH (s : Heap) (r : Nat) (f : JSVal → Heap → Heap × Nat) : Heap × Nat :=
  match s[r]? with
  | some (Result.ok v) => f v s
  | _ => (s, r)

/-- `orElse` at the heap level, symmetric to `andThenH`. -/
def orElseH (s : Heap) (r : Nat) (f : JSVal → Heap → Heap × Nat) : Heap × Nat :=
  match s[r]? with
  | some (Result.err e) => f e s
  | _ => (s, r)

/-- `unwrapOr` at the heap level: a pure read. -/
def unwrapOrH (s : Heap) (r : Nat) (d : JSVal) : Heap × JSVal :=
  match s[r]? with
  | some (Result.ok v) => (s, v)
  | _ => (s, d)

/-- `match` at the heap level: a pure read followed by one of the two branch
functions (`none` only on a dangling reference, which the source cannot
produce). -/
def matchH (s : Heap) (r : Nat) (okFn errFn : JSVal → JSVal) : Heap × Option JSVal :=
  match s[r]? with
  | some (Result.ok v) => (s, some (okFn v))
  | some (Result.err e) => (s, some (errFn e))
  | none => (s, none)

/-- The unwrap function at the heap level: a pure read that either yields the
value or throws the fixed error. -/
def safeUnwrapH (s : Heap) (r : Nat) : Heap × Except String JSVal :=
  match s[r]? with
  | some (Result.err _) => (s, Except.error "Attempted to unwrap an Err value")
  | some (Result.ok v) => (s, Except.ok v)
  | none => (s, Except.error "Attempted to unwrap an Err value")

/-- `combine` at the heap level: walk the references, returning the first
reference to an `err` object unchanged, else allocating a single fresh
`ok(values)` object at the end. -/
def combineHGo (s : Heap) : List Nat → List JSVal → Heap × Nat
  | [], values => allocObj s (Result.ok (JSVal.arr values))
  | r :: rest, values =>
    match s[r]? with
    | some (Result.err _) => (s, r)
    | some (Result.ok v) => combineHGo s rest (values ++ [v])
    | none => (s, r)

def combineH (s : Heap) (rs : List Nat) : Heap × Nat :=
  combineHGo s rs []

/-- `combineWithAllErrors` at the heap level: walk all references collecting
payloads, then allocate a single fresh result object. -/
def combineWithAllErrorsHGo (s : Heap) : List Nat → List JSVal → List JSVal → Heap × Nat
  | [], values, errors =>
    if errors.length = 0 then allocObj s (Result.ok (JSVal.arr values))
    else allocObj s (Result.err (JSVal.arr errors))
  | r :: rest, values, errors =>
    match s[r]? with
    | some (Result.ok v) => combineWithAllErrorsHGo s rest (values ++ [v]) errors
    | some (Result.err e) => combineWithAllErrorsHGo s rest values (errors ++ [e])
    | none => combineWithAllErrorsHGo s rest values errors

def combineWithAllErrorsH (s : Heap) (rs : List Nat) : Heap × Nat :=
  combineWithAllErrorsHGo s rs [] []

/-- `storeFrame s s'` states that every object allocated in `s` is unchanged
(same tag, same payload) in `s'`: the heap evolved only by allocation, never by
in-place mutation. -/
def storeFrame (s s' : Heap) : Prop :=
  ∀ i, i < s.length → s'[i]? = s[i]?

theorem storeFrame_refl (s : Heap) : storeFrame s s :=
  fun _ _ => rfl

theorem storeFrame_alloc (s : Heap) (v : Result JSVal JSVal) :
    storeFrame s (allocObj s v).1 := by
  intro i hi
  simp [allocObj, List.getElem?_append, hi]

theorem combineHGo_frame (s : Heap) (rs : List Nat) :
    ∀ values : List JSVal, storeFrame s (combineHGo s rs values).1 := by
  induction rs with
  | nil => intro values; exact storeFrame_alloc s _
  | cons r rest ih =>
    intro values
    cases hr : s[r]? with
    | none => simp [combineHGo, hr]; exact storeFrame_refl s
    | some res =>
      cases res with
      | err e => simp [combineHGo, hr]; exact storeFrame_refl s
      | ok v => simpa [combineHGo, hr] using ih (values ++ [v])

theorem combineWithAllErrorsHGo_frame (s : Heap) (rs : List Nat) :
    ∀ values errors : List JSVal,
      storeFrame s (combineWithAllErrorsHGo s rs values errors).1 := by
  induction rs with
  | nil =>
    intro values errors
    by_cases h : errors.length = 0 <;>
      simp [combineWithAllErrorsHGo, h] <;> exact storeFrame_alloc s _
  | cons r rest ih =>
    intro values errors
    cases hr : s[r]? with
    | none => simpa [combineWithAllErrorsHGo, hr] using ih values errors
    | some res =>
      cases res with
      | ok v => simpa [combineWithAllErrorsHGo, hr] using ih (values ++ [v]) errors
      | err e => simpa [combineWithAllErrorsHGo, hr] using ih values (errors ++ [e])

/-- Claim C9: no operation mutates a `Result` in place. In the explicit-heap
model of the source (every `ok`/`err` call allocates a fresh plain object;
combinators only read the `kind`/`value`/`error` fields), every combinator —
`map`, `mapErr`, `andThen`, `orElse`, `unwrapOr`, `match`, `combine`,
`combineWithAllErrors` and the unwrap function — leaves every previously
allocated object with the same tag and payload, provided the callbacks passed
to `andThen`/`orElse` do the same; each call either allocates new objects or
returns an original reference unchanged. -/
theorem no_mutation (s : Heap) (r : Nat) (f g okFn errFn : JSVal → JSVal)
    (fa fb : JSVal → Heap → Heap × Nat) (d : JSVal) (rs : List Nat)
    (hfa : ∀ v s₀, storeFrame s₀ (fa v s₀).1)
    (hfb : ∀ v s₀, storeFrame s₀ (fb v s₀).1) :
    storeFrame s (mapH s r f).1 ∧
    storeFrame s (mapErrH s r g).1 ∧
    storeFrame s (andThenH s r fa).1 ∧
    storeFrame s (orElseH s r fb).1 ∧
    storeFrame s (unwrapOrH s r d).1 ∧
    storeFrame s (matchH s r okFn errFn).1 ∧
    storeFrame s (combineH s rs).1 ∧
    storeFrame s (combineWithAllErrorsH s rs).1 ∧
    storeFrame s (safeUnwrapH s r).1 := by
  refine ⟨?_, ?_, ?_, ?_, ?_, ?_, ?_, ?_, ?_⟩
  · cases hr : s[r]? with
    | none => simp [mapH, hr]; exact storeFrame_refl s
    | some res =>
      cases res with
      | ok v => simpa [mapH, hr] using storeFrame_alloc s (Result.ok (f v))
      | err e => simp [mapH, hr]; exact storeFrame_refl s
  · cases hr : s[r]? with
    | none => simp [mapErrH, hr]; exact storeFrame_refl s
    | some res =>
      cases res with
      | ok v => simp [mapErrH, hr]; exact storeFrame_refl s
      | err e => simpa [mapErrH, hr] using storeFrame_alloc s (Result.err (g e))
  · cases hr : s[r]? with
    | none => simp [andThenH, hr]; exact storeFrame_refl s
    | some res =>
      cases res with
      | ok v => simpa [andThenH, hr] using hfa v s
      | err e => simp [andThenH, hr]; exact storeFrame_refl s
  · cases hr : s[r]? with
    | none => simp [orElseH, hr]; exact storeFrame_refl s
    | some res =>
      cases res with
      | ok v => simp [orElseH, hr]; exact storeFrame_refl s
      | err e => simpa [orElseH, hr] using hfb e s
  · cases hr : s[r]? with
    | none => simp [unwrapOrH, hr]; exact storeFrame_refl s
    | some res =>
      cases res with
      | ok v => simp [unwrapOrH, hr]; exact storeFrame_refl s
      | err e => simp [unwrapOrH, hr]; exact storeFrame_refl s
  · cases hr : s[r]? with
    | none => simp [matchH, hr]; exact storeFrame_refl s
    | some res =>
      cases res with
      | ok v => simp [matchH, hr]; exact storeFrame_refl s
      | err e => simp [matchH, hr]; exact storeFrame_refl s
  · exact combineHGo_frame s rs []
  · exact combineWithAllErrorsHGo_frame s rs [] []
  · cases hr : s[r]? with
    | none => simp [safeUnwrapH, hr]; exact storeFrame_refl s
    | some res =>
      cases res with
      | ok v => simp [safeUnwrapH, hr]; exact storeFrame_refl s
      | err e => simp [safeUnwrapH, hr]; exact storeFrame_refl s

theorem no_mutation_witness :
    storeFrame [Result.ok (JSVal.num 1)] (mapH [Result.ok (JSVal.num 1)] 0 (fun v => v)).1 ∧
    storeFrame [Result.ok (JSVal.num 1)] (combineH [Result.ok (JSVal.num 1)] [0]).1 := by
  have h := no_mutation [Result.ok (JSVal.num 1)] 0 (fun v => v) (fun v => v)
    (fun v => v) (fun v => v) (fun _ s₀ => (s₀, 0)) (fun _ s₀ => (s₀, 0))
    (JSVal.num 0) [0] (fun _ s₀ => storeFrame_refl s₀) (fun _ s₀ => storeFrame_refl s₀)
  exact ⟨h.1, h.2.2.2.2.2.2.1⟩

/-- Claim C7: `fromPromise` resolves to `success(value)` when the source
promise fulfills and to `failure(reason)` when it rejects, and the returned
promise never itself rejects. -/
theorem fromPromise_spec (T E F : Type) :
    (∀ v : T, fromPromise (Promise.fulfilled v : Promise T E) =
      (Promise.fulfilled (Result.ok v) : Promise (Result T E) F)) ∧
    (∀ e : E, fromPromise (Promise.rejected e : Promise T E) =
      (Promise.fulfilled (Result.err e) : Promise (Result T E) F)) ∧
    (∀ p : Promise T E, ∃ res : Result T E,
      fromPromise p = (Promise.fulfilled res : Promise (Result T E) F)) := by
  refine ⟨fun _ => rfl, fun _ => rfl, fun p => ?_⟩
  cases p with
  | fulfilled v => exact ⟨Result.ok v, rfl⟩
  | rejected e => exact ⟨Result.err e, rfl⟩

end ResultWire
